import Mathlib

/-
Verification of the concurrent traffic-light simulation (src/TrafficLight.cpp):
a blocking message queue (mutex + condition variable over a deque) and a
phase controller that toggles red/green on a randomized timer and publishes
each change through the queue.

The queue's container `_messages` (a deque, back at the end) is embedded as a
`List`; blocking `receive` is embedded as an `Option`-valued function that is
`none` exactly while the call would still be waiting.  The locking discipline
of the three queue methods is embedded as the trace of atomic actions each
method performs on the shared state.  The body of the background loop
`cycleThroughPhases` is embedded as a step function on the mutated fields.
-/

namespace TrafficSim

/-- The enum TrafficLightPhase from TrafficLight.h: the two phases. -/
inductive TrafficLightPhase where
  | red
  | green
deriving DecidableEq, Repr

/-- The MessageQueue container `_messages`: a deque of T, back of the deque
at the end of the list. -/
abbrev MessageQueue (T : Type) := List T

namespace MessageQueue

/-- MessageQueue<T>::send — `_messages.push_back(std::move(msg))`. -/
def send {T : Type} (q : MessageQueue T) (msg : T) : MessageQueue T :=
  q ++ [msg]

/-- MessageQueue<T>::receive — waits on `_condition` until `!_messages.empty()`
(`none` while the container is empty, i.e. while the call still blocks), then
`T msg = std::move(_messages.back()); _messages.pop_back(); return msg;`:
the returned value paired with the container after the pop. -/
def receive {T : Type} (q : MessageQueue T) : Option (T × MessageQueue T) :=
  match q.getLast? with
  | none => none
  | some msg => some (msg, q.dropLast)

/-- MessageQueue<T>::clear — `_messages.clear()`: the container is emptied
whatever it held. -/
def clear {T : Type} (_q : MessageQueue T) : MessageQueue T :=
  []

/-- Atomic actions a MessageQueue method performs on the shared state
(`_mutex` and `_messages`), in source statement order. -/
inductive LockAction where
  | acquire
  | release
  | mutate
  | notifyOne
  | waitNonEmpty
deriving DecidableEq, Repr

/-- Action trace of MessageQueue<T>::receive: `std::unique_lock` acquires
`_mutex`, `_condition.wait` with the non-empty predicate, `back`/`pop_back`
mutate the container, the lock is released at scope exit. -/
def receiveActions : List LockAction :=
  [LockAction.acquire, LockAction.waitNonEmpty, LockAction.mutate,
   LockAction.release]

/-- Action trace of MessageQueue<T>::send: `std::lock_guard` acquires
`_mutex`, `push_back` mutates the container, `_condition.notify_one()`,
the lock is released at scope exit. -/
def sendActions : List LockAction :=
  [LockAction.acquire, LockAction.mutate, LockAction.notifyOne,
   LockAction.release]

/-- Action trace of MessageQueue<T>::clear: the body is only
`_messages.clear()` — a mutation of the container with no lock taken. -/
def clearActions : List LockAction :=
  [LockAction.mutate]

/-- Scan an action trace keeping the current lock depth; true when every
mutation of the container happens while the lock is held. -/
def mutationsLockedFrom : Nat → List LockAction → Bool
  | _, [] => true
  | d, LockAction.acquire :: rest => mutationsLockedFrom (d + 1) rest
  | d, LockAction.release :: rest => mutationsLockedFrom (d - 1) rest
  | d, LockAction.mutate :: rest => decide (0 < d) && mutationsLockedFrom d rest
  | d, LockAction.notifyOne :: rest => mutationsLockedFrom d rest
  | d, LockAction.waitNonEmpty :: rest => mutationsLockedFrom d rest

/-- Every mutation in the trace is performed under the mutual-exclusion lock. -/
def mutationsLocked (as : List LockAction) : Bool :=
  mutationsLockedFrom 0 as

end MessageQueue

/-- Mutating operations applied to a queue over its history, used to track
where a received value can come from. -/
inductive QOp (T : Type) where
  | send (v : T)
  | clear
  | receive
deriving DecidableEq, Repr

/-- Apply one operation of the history to the container. -/
def applyOp {T : Type} (q : MessageQueue T) : QOp T → MessageQueue T
  | QOp.send v => MessageQueue.send q v
  | QOp.clear => MessageQueue.clear q
  | QOp.receive =>
      match MessageQueue.receive q with
      | none => q
      | some r => r.2

/-- The container after a history of operations starting from the empty
container a freshly constructed queue holds. -/
def runOps {T : Type} (ops : List (QOp T)) : MessageQueue T :=
  ops.foldl applyOp []

/-- State of a TrafficLight object: the `_currentPhase` field and the
container of the owned `_msgQueue`. -/
structure TrafficLight where
  currentPhase : TrafficLightPhase
  msgQueue : MessageQueue TrafficLightPhase
deriving DecidableEq, Repr

/-- TrafficLight::TrafficLight() — `_currentPhase = red` and a freshly
constructed (empty) message queue. -/
def TrafficLight.init : TrafficLight :=
  ⟨TrafficLightPhase.red, []⟩

/-- TrafficLight::getCurrentPhase() — `return _currentPhase;`, paired with
the (untouched) object state after the call. -/
def TrafficLight.getCurrentPhase (s : TrafficLight) :
    TrafficLightPhase × TrafficLight :=
  (s.currentPhase, s)

/-- TrafficLight::waitForGreen() — the while loop repeatedly receives from
the queue and breaks on green.  On the sequence of notifications the calls
to receive deliver, it returns the index of the first green notification,
and `none` when no green is ever delivered (the loop never exits). -/
def waitForGreen : List TrafficLightPhase → Option Nat
  | [] => none
  | p :: rest =>
      if p = TrafficLightPhase.green then some 0
      else (waitForGreen rest).map (fun k => k + 1)

/-- The phase toggle in cycleThroughPhases:
`_currentPhase == red ? green : red`. -/
def toggle (p : TrafficLightPhase) : TrafficLightPhase :=
  if p = TrafficLightPhase.red then TrafficLightPhase.green
  else TrafficLightPhase.red

/-- `std::uniform_int_distribution<int> secondsList(5, 8)`: maps a raw draw
of the engine to an integer in the inclusive range [5, 8]. -/
def secondsList (r : Nat) : Nat :=
  5 + r % 4

/-- The fields cycleThroughPhases reads and writes: the light's phase, the
queue's container, the stopwatch baseline `lastUpdate` and the current target
`cycleDuration` (times in whole seconds). -/
structure CycleState where
  currentPhase : TrafficLightPhase
  msgQueue : MessageQueue TrafficLightPhase
  lastUpdate : Nat
  cycleDuration : Nat
deriving DecidableEq, Repr

/-- The operations one firing of the cycle body performs, in source
statement order. -/
inductive CycleEvent where
  | togglePhase
  | clearQueue
  | sendPhase (p : TrafficLightPhase)
  | resetBaseline
  | drawDuration
deriving DecidableEq, Repr

/-- One iteration of the while loop of cycleThroughPhases, at wall-clock
time `now` (seconds) with next raw engine draw `r`: when
`timeSinceLastUpdate >= cycleDuration.count()`, it toggles `_currentPhase`,
clears the queue, sends the new phase (the `std::async` is waited on, so the
send completes here), resets `lastUpdate` and redraws `cycleDuration`;
otherwise the iteration leaves the state unchanged.  The second component
records the operations performed, in order. -/
def cycleStep (s : CycleState) (now r : Nat) : CycleState × List CycleEvent :=
  if s.cycleDuration ≤ now - s.lastUpdate then
    let p := toggle s.currentPhase
    (⟨p, MessageQueue.send (MessageQueue.clear s.msgQueue) p, now,
      secondsList r⟩,
     [CycleEvent.togglePhase, CycleEvent.clearQueue, CycleEvent.sendPhase p,
      CycleEvent.resetBaseline, CycleEvent.drawDuration])
  else (s, [])

/-- The state cycleThroughPhases sets up before its loop: the constructor
phase red, empty queue, baseline at start time `t0`, first duration drawn
from raw value `r0`. -/
def cycleInit (t0 r0 : Nat) : CycleState :=
  ⟨TrafficLightPhase.red, [], t0, secondsList r0⟩

/-- Run the cycle loop over a list of (time, raw draw) inputs. -/
def cycleRun (s : CycleState) : List (Nat × Nat) → CycleState
  | [] => s
  | i :: rest => cycleRun (cycleStep s i.1 i.2).1 rest

/-- The phase after n firings of the toggle, starting from the constructed
initial phase. -/
def phaseSeq (n : Nat) : TrafficLightPhase :=
  toggle^[n] TrafficLight.init.currentPhase

/-- receive blocks (is still waiting) exactly while the container is empty. -/
theorem receive_eq_none_iff {T : Type} (q : MessageQueue T) :
    MessageQueue.receive q = none ↔ q = [] := by
  induction q using List.reverseRecOn with
  | nil => simp [MessageQueue.receive]
  | append_singleton l a _ => simp [MessageQueue.receive]

/-- receive succeeds with value v and leftover q2 exactly when the container
was q2 with v at the back. -/
theorem receive_eq_some_iff {T : Type} (q q2 : MessageQueue T) (v : T) :
    MessageQueue.receive q = some (v, q2) ↔ q = q2 ++ [v] := by
  induction q using List.reverseRecOn with
  | nil => simp [MessageQueue.receive]
  | append_singleton l a _ =>
      simp only [MessageQueue.receive, List.getLast?_concat,
        List.dropLast_concat, Option.some.injEq, Prod.mk.injEq]
      constructor
      · rintro ⟨rfl, rfl⟩
        rfl
      · intro h
        have h1 := congrArg List.getLast? h
        rw [List.getLast?_concat, List.getLast?_concat] at h1
        have h2 := congrArg List.dropLast h
        rw [List.dropLast_concat, List.dropLast_concat] at h2
        exact ⟨Option.some.inj h1, h2⟩

/-- A value delivered by receive was an element of the container. -/
theorem mem_of_receive_eq_some {T : Type} {q q2 : MessageQueue T} {v : T}
    (h : MessageQueue.receive q = some (v, q2)) : v ∈ q := by
  rw [receive_eq_some_iff] at h
  subst h
  exact List.mem_append_right _ (List.mem_singleton.mpr rfl)

/-- Every element of the container after a history of operations was put
there by a send of that history. -/
theorem mem_foldl_applyOp {T : Type} (ops : List (QOp T)) :
    ∀ (q : MessageQueue T) (v : T),
      v ∈ ops.foldl applyOp q → v ∈ q ∨ QOp.send v ∈ ops := by
  induction ops with
  | nil =>
      intro q v h
      exact Or.inl h
  | cons op rest ih =>
      intro q v h
      rcases ih (applyOp q op) v h with hq | hs
      · cases op with
        | send w =>
            rcases List.mem_append.mp hq with h1 | h1
            · exact Or.inl h1
            · right
              rw [List.mem_singleton.mp h1]
              exact List.mem_cons_self _ _
        | clear =>
            simp [applyOp, MessageQueue.clear] at hq
        | receive =>
            cases hr : MessageQueue.receive q with
            | none =>
                rw [applyOp, hr] at hq
                exact Or.inl hq
            | some r =>
                rw [applyOp, hr] at hq
                have hq2 := (receive_eq_some_iff q r.2 r.1).mp (by
                  rw [hr])
                left
                rw [hq2]
                exact List.mem_append_left _ hq
      · exact Or.inr (List.mem_cons_of_mem _ hs)

/-- A phase that is not green is red. -/
theorem phase_ne_green {p : TrafficLightPhase}
    (h : ¬ p = TrafficLightPhase.green) : p = TrafficLightPhase.red := by
  cases p
  · rfl
  · exact absurd rfl h

/-- waitForGreen loops forever exactly when no green notification is ever
delivered. -/
theorem waitForGreen_eq_none_iff (msgs : List TrafficLightPhase) :
    waitForGreen msgs = none ↔ TrafficLightPhase.green ∉ msgs := by
  induction msgs with
  | nil => simp [waitForGreen]
  | cons p rest ih =>
      by_cases hp : p = TrafficLightPhase.green
      · subst hp
        simp [waitForGreen]
      · rw [waitForGreen, if_neg hp]
        simp only [Option.map_eq_none', ih, List.mem_cons]
        constructor
        · intro h hc
          rcases hc with hc | hc
          · exact hp hc.symm
          · exact h hc
        · intro h hc
          exact h (Or.inr hc)

/-- waitForGreen returns index k exactly when the k-th delivered notification
is the first green one and every earlier one is red. -/
theorem waitForGreen_eq_some_iff (msgs : List TrafficLightPhase) :
    ∀ k, waitForGreen msgs = some k ↔
      ∃ pre post, msgs = pre ++ TrafficLightPhase.green :: post ∧
        pre.length = k ∧ ∀ p ∈ pre, p = TrafficLightPhase.red := by
  induction msgs with
  | nil =>
      intro k
      simp [waitForGreen]
  | cons p rest ih =>
      intro k
      by_cases hp : p = TrafficLightPhase.green
      · subst hp
        rw [waitForGreen, if_pos rfl]
        constructor
        · intro h
          refine ⟨[], rest, rfl, ?_, by simp⟩
          simpa using Option.some.inj h
        · rintro ⟨pre, post, heq, hlen, hred⟩
          cases pre with
          | nil =>
              simp at hlen
              rw [← hlen]
          | cons a pre2 =>
              have ha : a = TrafficLightPhase.green := by
                have := congrArg (fun l => l.head?) heq
                simpa using this.symm
              have : a = TrafficLightPhase.red := hred a (List.mem_cons_self _ _)
              rw [ha] at this
              cases this
      · rw [waitForGreen, if_neg hp]
        constructor
        · intro h
          rcases Option.map_eq_some'.mp h with ⟨k2, hk2, hk⟩
          rcases (ih k2).mp hk2 with ⟨pre, post, heq, hlen, hred⟩
          refine ⟨p :: pre, post, by rw [heq]; rfl, by simp [hlen, ← hk], ?_⟩
          intro q hq
          rcases List.mem_cons.mp hq with hq | hq
          · rw [hq]
            exact phase_ne_green hp
          · exact hred q hq
        · rintro ⟨pre, post, heq, hlen, hred⟩
          cases pre with
          | nil =>
              simp at heq
              exact absurd heq.1 hp
          | cons a pre2 =>
              have hconsinj := List.cons.inj heq
              have hrest : rest = pre2 ++ TrafficLightPhase.green :: post :=
                hconsinj.2
              have hk2 : waitForGreen rest = some pre2.length :=
                (ih pre2.length).mpr ⟨pre2, post, hrest, rfl,
                  fun q hq => hred q (List.mem_cons_of_mem _ hq)⟩
              rw [hk2]
              simp only [Option.map_some']
              rw [← hlen]
              rfl

/-- The parity characterization of the toggled phase sequence. -/
theorem phaseSeq_parity (n : Nat) :
    phaseSeq n =
      if n % 2 = 0 then TrafficLightPhase.red else TrafficLightPhase.green := by
  induction n with
  | zero => simp [phaseSeq, TrafficLight.init]
  | succ m ih =>
      rw [phaseSeq, Function.iterate_succ_apply', ← phaseSeq, ih]
      rcases Nat.mod_two_eq_zero_or_one m with h | h
      · have h2 : (m + 1) % 2 = 1 := by omega
        rw [if_pos h, h2]
        rfl
      · have h2 : (m + 1) % 2 = 0 := by omega
        rw [if_neg (by omega), h2]
        rfl

/-- The distribution parameters bound every drawn duration to [5, 8]. -/
theorem secondsList_range (r : Nat) :
    5 ≤ secondsList r ∧ secondsList r ≤ 8 := by
  unfold secondsList
  omega

/-- One loop iteration keeps the target duration inside [5, 8]. -/
theorem cycleStep_dur (s : CycleState) (now r : Nat)
    (h1 : 5 ≤ s.cycleDuration) (h2 : s.cycleDuration ≤ 8) :
    5 ≤ (cycleStep s now r).1.cycleDuration ∧
      (cycleStep s now r).1.cycleDuration ≤ 8 := by
  unfold cycleStep
  by_cases hc : s.cycleDuration ≤ now - s.lastUpdate
  · rw [if_pos hc]
    exact secondsList_range r
  · rw [if_neg hc]
    exact ⟨h1, h2⟩

/-- Running the loop keeps the target duration inside [5, 8]. -/
theorem cycleRun_dur (inputs : List (Nat × Nat)) :
    ∀ s : CycleState, 5 ≤ s.cycleDuration → s.cycleDuration ≤ 8 →
      5 ≤ (cycleRun s inputs).cycleDuration ∧
        (cycleRun s inputs).cycleDuration ≤ 8 := by
  induction inputs with
  | nil =>
      intro s h1 h2
      exact ⟨h1, h2⟩
  | cons i rest ih =>
      intro s h1 h2
      rw [cycleRun]
      exact ih _ (cycleStep_dur s i.1 i.2 h1 h2).1 (cycleStep_dur s i.1 i.2 h1 h2).2

/-- C1: receive() blocks exactly while the container is empty, and on a
non-empty container it removes and returns exactly the most recently
inserted (back) element and nothing else: it succeeds with value v and
leftover q2 iff the container was q2 with v inserted last; in particular it
returns the value of the latest send. -/
theorem receive_blocks_then_pops_last :
    (∀ (T : Type) (q : MessageQueue T),
      MessageQueue.receive q = none ↔ q = []) ∧
    (∀ (T : Type) (q q2 : MessageQueue T) (v : T),
      MessageQueue.receive q = some (v, q2) ↔ q = q2 ++ [v]) ∧
    (∀ (T : Type) (q : MessageQueue T) (v : T),
      MessageQueue.receive (MessageQueue.send q v) = some (v, q)) :=
  ⟨fun _ q => receive_eq_none_iff q,
   fun _ q q2 v => receive_eq_some_iff q q2 v,
   fun _ _ _ => (receive_eq_some_iff _ _ _).mpr rfl⟩

/-- C2: the locking discipline of the three queue methods, evaluated on
their action traces: send and receive mutate the container only while the
mutual-exclusion lock is held, but clear() mutates it with no lock held at
all, so not every mutation of the container is performed under the lock. -/
theorem clear_mutates_without_lock :
    MessageQueue.mutationsLocked MessageQueue.sendActions = true ∧
    MessageQueue.mutationsLocked MessageQueue.receiveActions = true ∧
    MessageQueue.mutationsLocked MessageQueue.clearActions = false := by
  decide

/-- C3: over the sequence of notifications its receive calls deliver,
waitForGreen fails to return exactly when no green notification is
delivered, and it returns after k receives exactly when the k-th delivered
notification is green and every earlier one is red: it discards every red
notification and returns at the first green one. -/
theorem waitForGreen_returns_iff_green :
    (∀ msgs, waitForGreen msgs = none ↔ TrafficLightPhase.green ∉ msgs) ∧
    (∀ msgs k, waitForGreen msgs = some k ↔
      ∃ pre post, msgs = pre ++ TrafficLightPhase.green :: post ∧
        pre.length = k ∧ ∀ p ∈ pre, p = TrafficLightPhase.red) :=
  ⟨waitForGreen_eq_none_iff, fun msgs k => waitForGreen_eq_some_iff msgs k⟩

/-- C4: the constructed controller starts at phase red, the cycling toggle
maps red to green and green to red (the only transitions on the two-phase
type), and the resulting phase sequence is red at even steps and green at
odd steps: red, green, red, green, strictly alternating with no two
consecutive phases equal. -/
theorem phase_strict_alternation :
    TrafficLight.init.currentPhase = TrafficLightPhase.red ∧
    toggle TrafficLightPhase.red = TrafficLightPhase.green ∧
    toggle TrafficLightPhase.green = TrafficLightPhase.red ∧
    (∀ n, phaseSeq n =
      if n % 2 = 0 then TrafficLightPhase.red else TrafficLightPhase.green) :=
  ⟨rfl, rfl, rfl, phaseSeq_parity⟩

/-- C5: on an iteration whose elapsed time since the baseline reaches the
current target duration, the cycle performs, in source statement order,
phase toggle, queue clear, send of the toggled phase (completed before the
loop continues), baseline reset, duration redraw; the resulting state holds
the toggled phase, a queue containing exactly the newly sent phase, the
baseline at the current time, and the freshly drawn duration. -/
theorem cycleStep_fire_order (s : CycleState) (now r : Nat)
    (h : s.cycleDuration ≤ now - s.lastUpdate) :
    cycleStep s now r =
      (⟨toggle s.currentPhase, [toggle s.currentPhase], now, secondsList r⟩,
       [CycleEvent.togglePhase, CycleEvent.clearQueue,
        CycleEvent.sendPhase (toggle s.currentPhase),
        CycleEvent.resetBaseline, CycleEvent.drawDuration]) := by
  rw [cycleStep, if_pos h]
  rfl

/-- C5 witness: a concrete firing iteration, from phase red with baseline 0
and target 5, at time 5 with raw draw 1. -/
theorem cycleStep_fire_order_witness :
    cycleStep ⟨TrafficLightPhase.red, [], 0, 5⟩ 5 1 =
      (⟨TrafficLightPhase.green, [TrafficLightPhase.green], 5, 6⟩,
       [CycleEvent.togglePhase, CycleEvent.clearQueue,
        CycleEvent.sendPhase TrafficLightPhase.green,
        CycleEvent.resetBaseline, CycleEvent.drawDuration]) := by
  exact cycleStep_fire_order ⟨TrafficLightPhase.red, [], 0, 5⟩ 5 1 (by decide)

/-- C6: on an otherwise idle queue, after send red, clear, send green, a
receive returns green (the container is left empty), so it cannot yield the
superseded red. -/
theorem send_clear_send_receive_green :
    MessageQueue.receive
        (MessageQueue.send
          (MessageQueue.clear
            (MessageQueue.send ([] : MessageQueue TrafficLightPhase)
              TrafficLightPhase.red))
          TrafficLightPhase.green) =
      some (TrafficLightPhase.green, []) := by
  rfl

/-- C7: receive never produces a value without a prior send: on the empty
container it blocks (none), after clear() it blocks whatever the container
held before, it returns a newly sent value once a send follows the clear,
and after any history of operations on a fresh queue every value receive
delivers was sent somewhere in that history. -/
theorem receive_requires_prior_send :
    (∀ T : Type, MessageQueue.receive ([] : MessageQueue T) = none) ∧
    (∀ (T : Type) (q : MessageQueue T),
      MessageQueue.receive (MessageQueue.clear q) = none) ∧
    (∀ (T : Type) (q : MessageQueue T) (v : T),
      MessageQueue.receive (MessageQueue.send (MessageQueue.clear q) v) =
        some (v, [])) ∧
    (∀ (T : Type) (ops : List (QOp T)) (v : T) (q2 : MessageQueue T),
      MessageQueue.receive (runOps ops) = some (v, q2) →
        QOp.send v ∈ ops) := by
  refine ⟨fun _ => rfl, fun _ _ => rfl, fun _ _ _ => rfl, ?_⟩
  intro T ops v q2 h
  have hv : v ∈ runOps ops := mem_of_receive_eq_some h
  rcases mem_foldl_applyOp ops [] v hv with h1 | h2
  · cases h1
  · exact h2

/-- C7 witness: the provenance implication at a concrete history: after the
single-operation history send green, receive delivers green, and indeed a
send of green is in that history. -/
theorem receive_requires_prior_send_witness :
    QOp.send TrafficLightPhase.green ∈ [QOp.send TrafficLightPhase.green] :=
  receive_requires_prior_send.2.2.2 TrafficLightPhase
    [QOp.send TrafficLightPhase.green] TrafficLightPhase.green [] (by decide)

/-- C8: send appends the value at the back of the container: the result is
the old container with v appended, its length grows by exactly one, the old
elements are unchanged as a prefix of the result, and the send trace signals
the condition variable exactly once (notify_one, one waiting receiver
woken). -/
theorem send_appends_and_notifies_one :
    (∀ (T : Type) (q : MessageQueue T) (v : T),
      MessageQueue.send q v = q ++ [v] ∧
      (MessageQueue.send q v).length = q.length + 1 ∧
      (MessageQueue.send q v).take q.length = q) ∧
    MessageQueue.sendActions.count MessageQueue.LockAction.notifyOne = 1 := by
  refine ⟨fun T q v => ⟨rfl, by simp [MessageQueue.send], ?_⟩, by decide⟩
  rw [MessageQueue.send]
  exact List.take_left q [v]

/-- C9: every duration the distribution secondsList(5, 8) yields lies in
[5, 8]; over one period of four raw draws each of 5, 6, 7, 8 is obtained
exactly once (uniform support); and along any run of the cycle from its
initial state, whose first duration is drawn the same way, the current
target duration always lies in [5, 8]. -/
theorem cycle_duration_in_range :
    (∀ r, 5 ≤ secondsList r ∧ secondsList r ≤ 8) ∧
    (List.range 4).map secondsList = [5, 6, 7, 8] ∧
    (∀ (t0 r0 : Nat) (inputs : List (Nat × Nat)),
      5 ≤ (cycleRun (cycleInit t0 r0) inputs).cycleDuration ∧
        (cycleRun (cycleInit t0 r0) inputs).cycleDuration ≤ 8) :=
  ⟨secondsList_range, by decide,
   fun _ r0 inputs =>
     cycleRun_dur inputs _ (secondsList_range r0).1 (secondsList_range r0).2⟩

/-- C10: getCurrentPhase returns the current phase field and leaves the
whole controller state, phase field and queue container alike, unchanged. -/
theorem getCurrentPhase_is_pure :
    ∀ s : TrafficLight,
      (TrafficLight.getCurrentPhase s).1 = s.currentPhase ∧
      (TrafficLight.getCurrentPhase s).2 = s ∧
      (TrafficLight.getCurrentPhase s).2.currentPhase = s.currentPhase ∧
      (TrafficLight.getCurrentPhase s).2.msgQueue = s.msgQueue :=
  fun _ => ⟨rfl, rfl, rfl, rfl⟩

end TrafficSim
